import Mathlib

/-!
# Verification of the `HierarchyTable` component
  (src/significantChangesAlerts/significantChangesAlerts.js)

A shallow embedding of the `HierarchyTable` class.  The DOM state that the
component reads and writes (row attributes, marker classes, the text of the
hierarchy cell) is embedded as explicit fields of a `Row` structure; each
row record produced by `parseHierarchy` is a `Rec` pairing the closure state
of `setupMeta` (`_hidden`, `_collapsed`, ...) with its row.  Events dispatched
on rows or on the table are collected in an event log.

JavaScript string primitives (`split`, `trim`, `toLowerCase`, regex test with
the `gi` flags for metacharacter-free patterns) are modelled by structural
functions over `List Char` so that every definition evaluates by `decide`.
-/

/-! ## Models of the JavaScript string primitives -/

/-- Whitespace characters removed by `String.prototype.trim`. -/
def jsWhitespace (c : Char) : Bool :=
  c == ' ' || c == '\t' || c == '\n' || c == '\r'

/-- Model of `String.prototype.trim`. -/
def jsTrim (s : String) : String :=
  String.mk (((s.data.dropWhile jsWhitespace).reverse.dropWhile jsWhitespace).reverse)

/-- Helper for `jsSplit`: splits a character list at a separator. -/
def jsSplitAux (sep : Char) : List Char → List Char → List String
  | [], cur => [String.mk cur.reverse]
  | c :: cs, cur =>
    if c == sep then String.mk cur.reverse :: jsSplitAux sep cs []
    else jsSplitAux sep cs (c :: cur)

/-- Model of `String.prototype.split` with a one-character separator:
`jsSplit sep s` never returns the empty list (splitting `""` yields `[""]`). -/
def jsSplit (sep : Char) (s : String) : List String :=
  jsSplitAux sep s.data []

/-- ASCII lower-casing of one character. -/
def jsCharLower (c : Char) : Char :=
  if 'A' ≤ c && c ≤ 'Z' then Char.ofNat (c.toNat + 32) else c

/-- Model of `String.prototype.toLowerCase` (ASCII). -/
def jsToLower (s : String) : String :=
  String.mk (s.data.map jsCharLower)

/-- `startsWithSeq p s`: `p` is a leading segment of `s`. -/
def startsWithSeq : List Char → List Char → Bool
  | [], _ => true
  | _ :: _, [] => false
  | p :: ps, c :: cs => p == c && startsWithSeq ps cs

/-- `hasSubSeq p s`: `p` occurs contiguously inside `s`.
The empty `p` occurs in every `s`. -/
def hasSubSeq (p : List Char) : List Char → Bool
  | [] => p.isEmpty
  | c :: cs => startsWithSeq p (c :: cs) || hasSubSeq p cs

/-- Model of `s.match(new RegExp(pattern,'gi')) !== null` for patterns without
regex metacharacters: a case-insensitive substring test.  As in JavaScript,
the empty pattern matches every string. -/
def regexTestGi (pattern s : String) : Bool :=
  hasSubSeq (jsToLower pattern).data (jsToLower s).data

/-- JavaScript truthiness of a possibly-`undefined` boolean
(`undefined` is modelled as `none` and is falsy). -/
def jsTruthy : Option Bool → Bool
  | none => false
  | some b => b

/-- JavaScript `!` on a possibly-`undefined` boolean. -/
def jsNot (o : Option Bool) : Bool := !(jsTruthy o)

/-- `item.name.split('/').reverse()[0].trim()` from `parseHierarchy`:
the trimmed last `/`-separated segment. -/
def lastSegment (s : String) : String :=
  jsTrim (((jsSplit '/' s).reverse).headD "")

/-! ## Input data model -/

/-- One node of the hierarchy description supplied by the reporting backend:
`{id, name, parent, children}`.  A root's `parent` is the empty string. -/
inductive HNode : Type where
  | node (id name parent : String) (children : List HNode)

/-- The id of a node. -/
def HNode.id : HNode → String
  | .node i _ _ _ => i

/-! ## DOM and record state -/

/-- The DOM state of one `<tr>` that the component reads or writes:
marker classes, attributes, the presence of a drill-down link, the presence of
the injected collapse button and the text of the hierarchy cell's label.
`numCells` is the number of `<td>` children of the row. -/
structure Row where
  numCells : Nat
  cellLabel : String
  hasLink : Bool
  selfId : Option String := none
  clsLevel : Option Nat := none
  clsHidden : Bool := false
  clsCollapsed : Bool := false
  clsUncollapsed : Bool := false
  clsNoChildren : Bool := false
  clsMatched : Bool := false
  parentAttr : Option String := none
  hasButton : Bool := false
  clsHierCell : Bool := false
deriving DecidableEq

instance : Inhabited Row :=
  ⟨{ numCells := 0, cellLabel := "", hasLink := false }⟩

/-- One entry of `this.data`: the cell array (only the hierarchy-column entry
`arrayCol` is modelled, the value written by `updateCategoryLabel`) together
with the `meta` object built by `setupMeta`.  `hidden` and `collapsed` are the
closure variables `_hidden` and `_collapsed`; `collapsed = none` models the
JavaScript `undefined` on records without children. -/
structure Rec where
  id : String
  flatName : String
  name : String
  parent : String
  level : Nat
  hasChildren : Bool
  hidden : Bool
  collapsed : Option Bool
  row : Row
  arrayCol : String
deriving DecidableEq

instance : Inhabited Rec :=
  ⟨{ id := "", flatName := "", name := "", parent := "", level := 0,
     hasChildren := false, hidden := false, collapsed := none,
     row := default, arrayCol := "" }⟩

/-- The four domain events the component dispatches. -/
inductive Ev : Type where
  | collapse (id : String)
  | uncollapse (id : String)
  | flatView
  | treeView

/-- The state of one `HierarchyTable` instance: `this.data`, `this._flat`,
the table-level `reportal-heirarchy-flat-view` class, and the log of
dispatched events. -/
structure HState where
  recs : List Rec
  flat : Bool
  tableFlatCls : Bool
  events : List Ev

/-! ## Generic list update -/

/-- Apply `f` to the element at position `i` (no-op when out of range).
Positions in `recs` model JavaScript object identity of the row records. -/
def modifyNth (f : Rec → Rec) : Nat → List Rec → List Rec
  | _, [] => []
  | 0, r :: rs => f r :: rs
  | n + 1, r :: rs => r :: modifyNth f n rs

/-! ## The `setupMeta` accessors -/

/-- The `hidden` setter of `setupMeta`: the source stores `_hidden=true`
regardless of the assigned value; only the `reportal-hidden-row` marker class
on the row follows the assigned value. -/
def metaSetHidden (v : Bool) (r : Rec) : Rec :=
  { r with hidden := true, row := { r.row with clsHidden := v } }

/-- The `collapsed` setter of `setupMeta`.  The source guard
`typeof val != undefined` compares the string returned by `typeof` with the
value `undefined` and is therefore always true, so the body always runs:
it stores the value, swaps the collapsed/uncollapsed marker classes and
dispatches the matching event. -/
def metaSetCollapsed (v : Bool) (r : Rec) : Rec :=
  if v then
    { r with collapsed := some true,
             row := { r.row with clsCollapsed := true, clsUncollapsed := false } }
  else
    { r with collapsed := some false,
             row := { r.row with clsUncollapsed := true, clsCollapsed := false } }

/-! ## State-level primitive operations -/

/-- Assignment `meta.hidden = v` on the record at position `i`. -/
def setHiddenAt (st : HState) (i : Nat) (v : Bool) : HState :=
  { st with recs := modifyNth (metaSetHidden v) i st.recs }

/-- Assignment `meta.collapsed = v` on the record at position `i`, together
with the event dispatched by the setter. -/
def setCollapsedAt (st : HState) (i : Nat) (v : Bool) : HState :=
  { st with recs := modifyNth (metaSetCollapsed v) i st.recs,
            events := st.events ++
              [if v then Ev.collapse (st.recs.getD i default).id
               else Ev.uncollapse (st.recs.getD i default).id] }

/-- `row.classList.add('matched-search')` on the record at position `i`. -/
def addMatchedAt (st : HState) (i : Nat) : HState :=
  { st with recs :=
      modifyNth (fun r => { r with row := { r.row with clsMatched := true } }) i st.recs }

/-- `this.data.filter((row)=>{return row.meta.parent==meta.id})`, as the list
of positions of the matching records. -/
def childPositions (st : HState) (pid : String) : List Nat :=
  (List.range st.recs.length).filter (fun i => (st.recs.getD i default).parent == pid)

/-- `this.data.find(row => row.meta.id==pid)`, as a position. -/
def findPos (st : HState) (pid : String) : Option Nat :=
  (List.range st.recs.length).find? (fun i => (st.recs.getD i default).id == pid)

/-! ## Tree building: `parseHierarchy` -/

/-- `clearLink`: replaces the cell contents by the link's text, removing the
drill-down link (the visible label text is unchanged). -/
def clearLink (r : Row) : Row := { r with hasLink := false }

/-- `setupMeta` builds the record prototype; `_hidden` is initialized from the
`hidden` argument and `_collapsed` from the `collapsed` argument. -/
def setupMeta (row : Row) (id flatName name parent : String) (level : Nat)
    (hidden : Bool) (collapsed : Option Bool) (hasChildren : Bool)
    (arrayCol : String) : Rec :=
  { id := id, flatName := flatName, name := name, parent := parent,
    level := level, hasChildren := hasChildren, hidden := hidden,
    collapsed := collapsed, row := row, arrayCol := arrayCol }

/-- `addCollapseButton` accesses `meta.row.children[this.column]`; the access
yields an element exactly when `0 ≤ column < numCells`, otherwise the source
throws a `TypeError` on `undefined.insertBefore`. -/
def collapseButtonOk (col : Int) (r : Row) : Bool :=
  decide (0 ≤ col) && decide (col < (r.numCells : Int))

/-- The row mutation performed by a successful `addCollapseButton`. -/
def addCollapseButton (r : Row) : Row :=
  { r with hasButton := true, clsHierCell := true }

/-- The row mutations `parseHierarchy` performs on an item's row before the
record is pushed: `row.setAttribute("self-id", ...)`, the per-level class,
the hidden marker plus `clearLink` on levels above 0, the
collapsed/no-children marker, and the `parent` attribute when the item has
a parent. -/
def tagRow (r : Row) (id parent : String) (level : Nat) (hasCh : Bool) : Row :=
  let r1 := { r with selfId := some id, clsLevel := some level }
  let r2 := if 0 < level then clearLink { r1 with clsHidden := true } else r1
  let r3 := if hasCh then { r2 with clsCollapsed := true }
            else { r2 with clsNoChildren := true }
  if parent ≠ "" then { r3 with parentAttr := some parent } else r3

/-- One level of `parseHierarchy`'s `hierarchy.reduce(...)` body.  The
recursion into `item.children` (taken only while `level < 2`) is abstracted
as `recC` so that the bounded recursion of the source (three levels) can be
instantiated by stacking this step three times; `recC` is invoked exactly
where the source recurses.  The boolean result records whether a `TypeError`
aborted the build (`addCollapseButton` on an invalid column); the record list
holds everything pushed before the failure, with its row mutations. -/
def parseStep (col : Int) (rowOf : String → Row) (flat : Bool)
    (recC : List HNode → Nat → List Rec → List Rec × Bool) :
    List HNode → Nat → List Rec → List Rec × Bool
  | [], _, array => (array, false)
  | HNode.node id name parent children :: ns, level, array =>
    let hasCh := decide (0 < children.length)
    let row := tagRow (rowOf id) id parent level hasCh
    let rec0 := setupMeta row id name (lastSegment name) parent level true
                  (if hasCh then some true else none) hasCh row.cellLabel
    if collapseButtonOk col row then
      -- addCollapseButton, then updateCategoryLabel writes row[this.column]
      let rec1 := { rec0 with row := addCollapseButton rec0.row,
                              arrayCol := if flat then rec0.flatName else rec0.name }
      let array1 := array ++ [rec1]
      if level < 2 then
        let res := recC children (level + 1) array1
        -- an exception thrown while processing the children propagates
        if res.2 then res
        else parseStep col rowOf flat recC ns level res.1
      else parseStep col rowOf flat recC ns level array1
    else (array ++ [rec0], true)

/-- `parseHierarchy(hierarchy, level, array)`.  Because the source recurses
only while `level < 2`, the recursion from the top-level call (`level = 0`)
is at most three levels deep; it is realized by stacking `parseStep` three
times (the innermost continuation is unreachable, since the third copy only
processes `level = 2`, where `level < 2` fails). -/
def parseHierarchy (col : Int) (rowOf : String → Row) (flat : Bool) :
    List HNode → Nat → List Rec → List Rec × Bool :=
  parseStep col rowOf flat
    (parseStep col rowOf flat
      (parseStep col rowOf flat (fun _ _ array => (array, false))))

/-- The constructor followed by `init()`: sets `this.flat` (dispatching the
matching view event), parses the hierarchy into `this.data`, and reattaches
the rows.  `rh` models the `rowheaders` map `id -> index`, `tableRows` the
`tbody>tr` node list; the boolean reports whether a `TypeError` aborted the
build. -/
def buildState (forest : List HNode) (rh : String → Nat) (tableRows : Nat → Row)
    (col : Int) (flat : Bool) : HState × Bool :=
  match parseHierarchy col (fun id => tableRows (rh id)) flat forest 0 [] with
  | (recs, err) =>
    ({ recs := recs, flat := flat, tableFlatCls := flat,
       events := [if flat then Ev.flatView else Ev.treeView] }, err)

/-! ## View-mode switch -/

/-- `updateCategoryLabel(row)`: the source computes the new label but assigns
it only to the local variable `label` and to the data-array entry
`row[this.column]`; the text of the header cell in the DOM is never written. -/
def updateCategoryLabel (flat : Bool) (r : Rec) : Rec :=
  { r with arrayCol := if flat then r.flatName else r.name }

/-- The `flat` setter: stores the flag, toggles the table-level class,
reruns `updateCategoryLabel` on every record and dispatches the view event. -/
def setFlatState (st : HState) (b : Bool) : HState :=
  { st with flat := b, tableFlatCls := b,
            recs := st.recs.map (updateCategoryLabel b),
            events := st.events ++ [if b then Ev.flatView else Ev.treeView] }

/-! ## Visibility engine: `toggleHiddenRows` and the collapse button -/

/-- The `children.forEach` body of `toggleHiddenRows`, for the child records
at positions `cs` of the parent at position `p`.  When the parent is
collapsed and a child with children is not collapsed, the source sets the
child collapsed and then calls `this.toggleHiddenRows(row.meta)` — but `row`
is not a variable in scope there, so the call raises a `ReferenceError`,
which aborts the `forEach`; the boolean result records that abort. -/
def procChildren (st : HState) (p : Nat) : List Nat → HState × Bool
  | [] => (st, false)
  | c :: cs =>
    let pc := jsTruthy ((st.recs.getD p default).collapsed)
    if pc then
      let st1 := setHiddenAt st c true
      let ch := st1.recs.getD c default
      if ch.hasChildren && jsNot ch.collapsed then
        (setCollapsedAt st1 c true, true)
      else procChildren st1 p cs
    else procChildren (setHiddenAt st c false) p cs

/-- `toggleHiddenRows(meta)` for the record at position `i`. -/
def toggleHiddenRows (st : HState) (i : Nat) : HState × Bool :=
  let m := st.recs.getD i default
  if m.hasChildren then procChildren st i (childPositions st m.id)
  else (st, false)

/-- The collapse-button click listener installed by `addCollapseButton`:
`meta.collapsed = !meta.collapsed; this.toggleHiddenRows(meta)`. -/
def collapseButtonClick (st : HState) (i : Nat) : HState × Bool :=
  let m := st.recs.getD i default
  let st1 := setCollapsedAt st i (jsNot m.collapsed)
  toggleHiddenRows st1 i

/-! ## Search engine -/

/-- `uncollapseParents(meta)`, called with the `parent` id of the current
record.  The walk stops at an empty parent id; a parent id with no matching
record makes the source throw a `TypeError` on `parent.meta` (second result
`true`).  Each found ancestor is uncollapsed through the `collapsed` setter
when its `collapsed` flag is truthy, receives the `matched-search` class, and
the walk continues from its own parent.  `fuel` bounds the recursion depth;
the source recursion is bounded by the parent-chain length for well-formed
data, so any `fuel ≥` the number of records is exact there. -/
def uncollapseParents : Nat → HState → String → HState × Bool
  | 0, st, _ => (st, false)
  | fuel + 1, st, pid =>
    if pid = "" then (st, false)
    else
      match findPos st pid with
      | none => (st, true)
      | some p =>
        let st1 := if jsTruthy ((st.recs.getD p default).collapsed)
                   then setCollapsedAt st p false else st
        let st2 := addMatchedAt st1 p
        uncollapseParents fuel st2 ((st2.recs.getD p default).parent)

/-- The worklist form of `displayChildren(meta)`'s recursion: the stack holds
the lists of child positions still to process, innermost first.  Popping a
child marks it `matched-search` and pushes its own children (depth-first,
in sibling order — exactly the source's recursion order).  `fuel` bounds the
number of steps; the source recursion is finite for well-formed data. -/
def displayChildrenGo : Nat → HState → List (List Nat) → HState
  | 0, st, _ => st
  | _ + 1, st, [] => st
  | fuel + 1, st, [] :: rest => displayChildrenGo fuel st rest
  | fuel + 1, st, (c :: cs) :: rest =>
    let st1 := addMatchedAt st c
    let m := st1.recs.getD c default
    let next := if m.hasChildren then [childPositions st1 m.id] else []
    displayChildrenGo fuel st1 (next ++ (cs :: rest))

/-- `displayChildren(meta)` for the record at position `i`: marks every
descendant with the `matched-search` class (without touching hidden or
collapsed state). -/
def displayChildren (fuel : Nat) (st : HState) (i : Nat) : HState :=
  let m := st.recs.getD i default
  if m.hasChildren then displayChildrenGo fuel st [childPositions st m.id]
  else st

/-- The `matched.forEach` body of `searchRowheaders` for the record at
position `i`: add the `matched-search` class, uncollapse the ancestors,
then mark the descendants.  A `TypeError` from `uncollapseParents` aborts. -/
def searchStep (fuel : Nat) (st : HState) (i : Nat) : HState × Bool :=
  let st1 := addMatchedAt st i
  match uncollapseParents fuel st1 ((st1.recs.getD i default).parent) with
  | (st2, true) => (st2, true)
  | (st2, false) => (displayChildren fuel st2 i, false)

/-- Processes the list of matched positions in order, stopping at the first
aborted step (an exception aborts the `forEach`). -/
def searchList (fuel : Nat) : List Nat → HState → HState × Bool
  | [], st => (st, false)
  | i :: is, st =>
    match searchStep fuel st i with
    | (st1, true) => (st1, true)
    | (st1, false) => searchList fuel is st1

/-- `searchRowheaders(str)`: filter `this.data` by matching the query against
`flatName` in flat view and `name` in tree view, then process each match.
The fuel `(n+1)²` over-approximates every chain the source can walk on
well-formed data. -/
def searchRowheaders (st : HState) (q : String) : HState × Bool :=
  let n := st.recs.length
  let matched := (List.range n).filter (fun i =>
    let r := st.recs.getD i default
    regexTestGi q (if st.flat then r.flatName else r.name))
  searchList ((n + 1) * (n + 1)) matched st

/-! ## User-interaction operations -/

/-- The discrete external triggers after construction: a click on a record's
collapse button, an assignment to `flat`, and a search.  An exception thrown
by an operation aborts that operation but leaves its mutations in place, and
the page keeps running, so a sequence of operations drops the error flags. -/
inductive Op : Type where
  | toggle (i : Nat)
  | setFlat (b : Bool)
  | search (q : String)

/-- Apply one operation (keeping the state an aborted operation leaves). -/
def applyOp (st : HState) : Op → HState
  | .toggle i => (collapseButtonClick st i).1
  | .setFlat b => setFlatState st b
  | .search q => (searchRowheaders st q).1

/-- Apply a sequence of operations. -/
def applyOps (st : HState) (ops : List Op) : HState :=
  ops.foldl applyOp st

/-! ## Concrete inputs (the worked example of the specification) -/

/-- A fresh table row with one cell whose label is `s`, carrying a
drill-down link, and none of the component's classes or attributes. -/
def freshRow (s : String) : Row :=
  { numCells := 1, cellLabel := s, hasLink := true }

/-- The forest `[{id:"A", name:"Region", children:[{id:"B",
name:"Region/North", children:[]}]}]`. -/
def exForest : List HNode :=
  [HNode.node "A" "Region" "" [HNode.node "B" "Region/North" "A" []]]

/-- The row-header index `{A:0, B:1}`. -/
def exRH : String → Nat := fun id => if id = "A" then 0 else 1

/-- The two table rows, labelled as the backend renders them. -/
def exRows : Nat → Row := fun n =>
  if n = 0 then freshRow "Region" else freshRow "Region/North"

/-- The component state freshly built on the worked example, in tree view. -/
def exState : HState := (buildState exForest exRH exRows 0 false).1

/-- A three-level chain: `A` (Region) → `B` (Region/North) →
`C` (Region/North/East). -/
def exForest3 : List HNode :=
  [HNode.node "A" "Region" ""
    [HNode.node "B" "Region/North" "A"
      [HNode.node "C" "Region/North/East" "B" []]]]

/-- Row-header index for the three-level chain. -/
def exRH3 : String → Nat := fun id => if id = "A" then 0 else if id = "B" then 1 else 2

/-- Table rows for the three-level chain. -/
def exRows3 : Nat → Row := fun n =>
  if n = 0 then freshRow "Region"
  else if n = 1 then freshRow "Region/North" else freshRow "Region/North/East"

/-- The freshly built three-level state, in tree view. -/
def exState3 : HState := (buildState exForest3 exRH3 exRows3 0 false).1

/-- The three-level state after uncollapsing `A` and then `B` by clicks. -/
def exState3open : HState := applyOps exState3 [Op.toggle 0, Op.toggle 1]

/-! ## Specification-side definitions -/

/-- The depth-first pre-order traversal of a forest truncated at depth 2
(nodes at levels 0, 1 and 2 listed in pre-order; children of level-2 nodes
dropped), as the list of node ids.  This is the traversal the specification
compares the Tree Builder's output against. -/
def preorderTrunc : List HNode → Nat → List String
  | [], _ => []
  | HNode.node id _ _ children :: ns, level =>
    id :: ((if level < 2 then preorderTrunc children (level + 1) else []) ++
           preorderTrunc ns level)

/-- The positions of the ancestors visited by `uncollapseParents` when called
with parent id `pid`, mirroring its walk (stopping at the empty id, at a
missing record, or when the fuel runs out). -/
def ancestorChain : Nat → HState → String → List Nat
  | 0, _, _ => []
  | fuel + 1, st, pid =>
    if pid = "" then []
    else
      match findPos st pid with
      | none => []
      | some p => p :: ancestorChain fuel st ((st.recs.getD p default).parent)

/-- Well-formed parent pointers: every record's `parent` is either empty or
the id of some record.  (Input hierarchies from the backend satisfy this.) -/
def WFparents (st : HState) : Prop :=
  ∀ i ∈ List.range st.recs.length,
    (st.recs.getD i default).parent = "" ∨
    ∃ j ∈ List.range st.recs.length,
      (st.recs.getD j default).id = (st.recs.getD i default).parent

/-- A tree-building function produces, at `level`, the pre-order truncated
traversal: it never aborts and appends exactly the records of the truncated
traversal (compared by id) to its accumulator. -/
def ParsesPreorder (g : List HNode → Nat → List Rec → List Rec × Bool)
    (level : Nat) : Prop :=
  ∀ ns array, (g ns level array).2 = false ∧
    (g ns level array).1.map Rec.id = array.map Rec.id ++ preorderTrunc ns level

/-- Every record of the state has its `hidden` flag set (the state of affairs
the `hidden` setter can never leave). -/
def AllHidden (st : HState) : Prop :=
  ∀ r ∈ st.recs, r.hidden = true

/-- The state mutations a search performs never change the record skeleton
(length, ids, parents, children flags), never touch the hidden marker class,
never remove the `matched-search` class, and never newly collapse a record. -/
def SearchPreserves (st stA : HState) : Prop :=
  stA.recs.length = st.recs.length ∧
  ∀ j, (stA.recs.getD j default).id = (st.recs.getD j default).id ∧
    (stA.recs.getD j default).parent = (st.recs.getD j default).parent ∧
    (stA.recs.getD j default).hasChildren = (st.recs.getD j default).hasChildren ∧
    (stA.recs.getD j default).row.clsHidden = (st.recs.getD j default).row.clsHidden ∧
    ((st.recs.getD j default).row.clsMatched = true →
      (stA.recs.getD j default).row.clsMatched = true) ∧
    ((st.recs.getD j default).collapsed ≠ some true →
      (stA.recs.getD j default).collapsed ≠ some true)

/-! # Theorems -/

/-! ### C2 — the `hidden` invariant fails already on roots -/

/-- C2: the claimed invariant "`hidden` is true iff some ancestor is
collapsed, and root records always have `hidden` false" fails on the code
with zero toggle operations: in the freshly built worked example the root
record `A` (level 0, empty parent, hence no ancestors at all) already has
`hidden = true`, because `parseHierarchy` passes `hidden:true` for every
level and the `hidden` setter stores `true` unconditionally. -/
theorem c2_root_hidden_flag_true :
    (exState.recs.getD 0 default).level = 0 ∧
    (exState.recs.getD 0 default).parent = "" ∧
    (exState.recs.getD 0 default).hidden = true := by
  decide

/-! ### C3 — the collapse cascade crashes instead of recursing -/

/-- C3: on the three-level chain `A → B → C`, after uncollapsing `A` and `B`,
record `B` has children and is not collapsed; collapsing `A` then reaches the
cascade branch of `toggleHiddenRows`, which re-collapses `B` and then throws
a `ReferenceError` (`this.toggleHiddenRows(row.meta)` references the
undefined variable `row`), so the traversal aborts and the grandchild `C` is
never hidden — the cascade does not proceed "without error". -/
theorem c3_cascade_aborts :
    (exState3open.recs.getD 1 default).hasChildren = true ∧
    (exState3open.recs.getD 1 default).collapsed = some false ∧
    (collapseButtonClick exState3open 0).2 = true ∧
    ((collapseButtonClick exState3open 0).1.recs.getD 1 default).collapsed
      = some true ∧
    ((collapseButtonClick exState3open 0).1.recs.getD 2 default).row.clsHidden
      = false := by
  decide

/-! ### C4 — the initial state of the worked example -/

/-- C4: immediately after construction on the worked example, `A` has
level 0, `hasChildren = true` and `collapsed = some true`, and `B` has
level 1, `hidden = true`, `hasChildren = false` — but `A`'s `hidden` flag is
`true`, not `false` as the claim states: `parseHierarchy` initializes
`hidden:true` for level-0 records as well (only the row class spares the
root the `reportal-hidden-row` marker). -/
theorem c4_initial_state_eval :
    (exState.recs.getD 0 default).level = 0 ∧
    (exState.recs.getD 0 default).hasChildren = true ∧
    (exState.recs.getD 0 default).collapsed = some true ∧
    (exState.recs.getD 0 default).hidden = true ∧
    (exState.recs.getD 0 default).row.clsHidden = false ∧
    (exState.recs.getD 1 default).level = 1 ∧
    (exState.recs.getD 1 default).hidden = true ∧
    (exState.recs.getD 1 default).hasChildren = false := by
  decide

/-! ### C5 — labels are never written into the header cell -/

/-- C5: in the freshly built worked example the controller is in tree mode,
record `B`'s recomputed label is `"North"` and is stored in the data array,
but the header cell still shows the original `"Region/North"`:
`updateCategoryLabel` assigns the new label only to a local variable and the
array entry, never to the DOM cell, and setting the flat flag does not change
the cell text either. -/
theorem c5_cell_label_never_updated :
    exState.flat = false ∧
    (exState.recs.getD 1 default).name = "North" ∧
    (exState.recs.getD 1 default).arrayCol = "North" ∧
    (exState.recs.getD 1 default).row.cellLabel = "Region/North" ∧
    ((setFlatState exState true).recs.getD 1 default).row.cellLabel
      = "Region/North" := by
  decide

/-! ### C6 — double-toggle does not restore descendant state -/

/-- C6 counterexample: on the three-level chain with `A` and `B` uncollapsed,
toggling `A`'s collapse button twice (collapse, then uncollapse) does not
return descendant state to the pre-toggle snapshot: `B.collapsed` was
`some false` before and is `some true` after (the first toggle's cascade
re-collapsed `B` before crashing). -/
theorem c6_double_toggle_counterexample :
    (exState3open.recs.getD 1 default).collapsed = some false ∧
    ((applyOps exState3open [Op.toggle 0, Op.toggle 0]).recs.getD 1
        default).collapsed = some true := by
  decide

/-! ### C7 counterexample — the matched row stays hidden -/

/-- C7 counterexample: searching `"North"` on the fresh worked example in
tree mode matches `B`, marks `A` and `B` with the highlight class and
uncollapses `A`, yet `B`'s row still carries the `reportal-hidden-row`
class: `uncollapseParents` only flips the ancestors' `collapsed` flags (the
setter does not propagate visibility), so the matched row is not revealed. -/
theorem c7_matched_row_stays_hidden :
    (searchRowheaders exState "North").2 = false ∧
    ((searchRowheaders exState "North").1.recs.getD 1 default).row.clsMatched
      = true ∧
    ((searchRowheaders exState "North").1.recs.getD 0 default).row.clsMatched
      = true ∧
    ((searchRowheaders exState "North").1.recs.getD 0 default).collapsed
      = some false ∧
    ((searchRowheaders exState "North").1.recs.getD 1 default).row.clsHidden
      = true := by
  decide

/-! ### C8 counterexample — the empty query matches everything -/

/-- C8 counterexample: searching with the empty query on the fresh worked
example does not match zero records — the empty pattern matches every name,
so both records receive the highlight class and `B`'s collapsed ancestor `A`
is uncollapsed. -/
theorem c8_empty_query_counterexample :
    ((searchRowheaders exState "").1.recs.getD 0 default).row.clsMatched
      = true ∧
    ((searchRowheaders exState "").1.recs.getD 1 default).row.clsMatched
      = true ∧
    ((searchRowheaders exState "").1.recs.getD 0 default).collapsed
      = some false := by
  decide

/-! ### C9 counterexample — no validation, and the table is mutated -/

/-- C9 counterexample: constructing on the worked example with hierarchy
column `-1` fails (a `TypeError` in `addCollapseButton`, not a `ConfigError`
at validation time), and by then the first row has already been mutated (its
`self-id` attribute and level class are set), so the table is not left
untouched. -/
theorem c9_negative_column_counterexample :
    (buildState exForest exRH exRows (-1) false).2 = true ∧
    ((buildState exForest exRH exRows (-1) false).1.recs.getD 0
        default).row.selfId = some "A" ∧
    ((buildState exForest exRH exRows (-1) false).1.recs.getD 0
        default).row.clsLevel = some 0 := by
  decide

/-! ### C1 — the record list is the truncated pre-order traversal -/

/-- `tagRow` never changes the number of cells of the row. -/
@[simp]
theorem tagRow_numCells (r : Row) (id parent : String) (level : Nat)
    (hasCh : Bool) : (tagRow r id parent level hasCh).numCells = r.numCells := by
  simp only [tagRow, clearLink]
  split_ifs <;> rfl

/-- `tagRow` sets the `self-id` attribute. -/
@[simp]
theorem tagRow_selfId (r : Row) (id parent : String) (level : Nat)
    (hasCh : Bool) : (tagRow r id parent level hasCh).selfId = some id := by
  simp only [tagRow, clearLink]
  split_ifs <;> rfl

/-- `tagRow` sets the level class. -/
@[simp]
theorem tagRow_clsLevel (r : Row) (id parent : String) (level : Nat)
    (hasCh : Bool) : (tagRow r id parent level hasCh).clsLevel = some level := by
  simp only [tagRow, clearLink]
  split_ifs <;> rfl

/-- One `parseStep` layer produces the truncated pre-order traversal at its
level, provided the column is valid on every row and the continuation does so
one level deeper. -/
theorem parseStep_preorder (col : Int) (rowOf : String → Row) (flat : Bool)
    (hok : ∀ id, 0 ≤ col ∧ col < ((rowOf id).numCells : Int))
    (recC : List HNode → Nat → List Rec → List Rec × Bool) (level : Nat)
    (hrec : level < 2 → ParsesPreorder recC (level + 1)) :
    ParsesPreorder (parseStep col rowOf flat recC) level := by
  intro ns array
  induction ns generalizing array with
  | nil => simp [parseStep, preorderTrunc]
  | cons n ns ih =>
    obtain ⟨id, name, parent, children⟩ := n
    have hbtn : collapseButtonOk col
        (tagRow (rowOf id) id parent level (decide (0 < children.length))) = true := by
      simp [collapseButtonOk, (hok id).1, (hok id).2]
    have ih1 : ∀ a, (parseStep col rowOf flat recC ns level a).2 = false :=
      fun a => (ih a).1
    have ih2 : ∀ a, (parseStep col rowOf flat recC ns level a).1.map Rec.id
        = a.map Rec.id ++ preorderTrunc ns level := fun a => (ih a).2
    by_cases hl : level < 2
    · have hcf : ∀ X, (recC children (level + 1) X).2 = false :=
        fun X => (hrec hl children X).1
      have hcm : ∀ X, (recC children (level + 1) X).1.map Rec.id
          = X.map Rec.id ++ preorderTrunc children (level + 1) :=
        fun X => (hrec hl children X).2
      constructor
      · simp [parseStep, hbtn, hl, hcf, ih1]
      · simp [parseStep, hbtn, hl, hcf, ih2, hcm, preorderTrunc, setupMeta]
    · constructor
      · simp [parseStep, hbtn, hl, ih1]
      · simp [parseStep, hbtn, hl, ih2, preorderTrunc, setupMeta]

/-- `parseHierarchy`, entered at level 0, produces the truncated pre-order
traversal when the hierarchy column is valid on every row. -/
theorem parseHierarchy_preorder (col : Int) (rowOf : String → Row) (flat : Bool)
    (hok : ∀ id, 0 ≤ col ∧ col < ((rowOf id).numCells : Int)) :
    ParsesPreorder (parseHierarchy col rowOf flat) 0 := by
  unfold parseHierarchy
  refine parseStep_preorder col rowOf flat hok _ 0 (fun _ => ?_)
  refine parseStep_preorder col rowOf flat hok _ 1 (fun _ => ?_)
  exact parseStep_preorder col rowOf flat hok _ 2 (fun h => absurd h (by omega))

/-- C1: for every forest and row-index map whose rows have the hierarchy
column (a valid configuration at the default column 0), the build succeeds
and the record list is exactly the depth-first pre-order traversal of the
forest truncated at depth 2 — children of level-2 nodes produce no record. -/
theorem c1_records_are_truncated_preorder (forest : List HNode)
    (rh : String → Nat) (tableRows : Nat → Row) (flat : Bool)
    (hrows : ∀ id, 0 < (tableRows (rh id)).numCells) :
    (buildState forest rh tableRows 0 flat).2 = false ∧
    (buildState forest rh tableRows 0 flat).1.recs.map Rec.id
      = preorderTrunc forest 0 := by
  have hok : ∀ id, (0:Int) ≤ 0 ∧
      (0:Int) < (((fun id => tableRows (rh id)) id).numCells : Int) := by
    intro id
    exact ⟨le_refl 0, by exact_mod_cast hrows id⟩
  obtain ⟨herr, hmap⟩ :=
    parseHierarchy_preorder 0 (fun id => tableRows (rh id)) flat hok forest []
  rcases hp : parseHierarchy 0 (fun id => tableRows (rh id)) flat forest 0 []
    with ⟨recs, err⟩
  rw [hp] at herr hmap
  simp only [buildState, hp]
  simpa using ⟨herr, hmap⟩

/-- Witness for C1: the worked example satisfies the column hypothesis, and
the theorem applies to it. -/
theorem c1_records_are_truncated_preorder_witness :
    (∀ id, 0 < (exRows (exRH id)).numCells) ∧
    ((buildState exForest exRH exRows 0 false).2 = false ∧
     (buildState exForest exRH exRows 0 false).1.recs.map Rec.id
       = preorderTrunc exForest 0) := by
  have h : ∀ id, 0 < (exRows (exRH id)).numCells := by
    intro id
    by_cases hA : id = "A" <;> simp [exRows, exRH, freshRow, hA]
  exact ⟨h, c1_records_are_truncated_preorder exForest exRH exRows false h⟩

/-! ### C9 — a negative column aborts after mutating the table -/

/-- C9 (amended): construction performs no configuration validation.  With a
negative hierarchy column, on any nonempty forest the build throws (a
`TypeError` in `addCollapseButton`, there is no `ConfigError` check), and by
that time the first processed row has already been mutated — its `self-id`
attribute and level class are set — so the table is not left untouched. -/
theorem c9_no_validation_mutates_first_row (idn name parent : String)
    (children ns : List HNode) (rh : String → Nat) (tableRows : Nat → Row)
    (flat : Bool) (col : Int) (hcol : col < 0) :
    (buildState (HNode.node idn name parent children :: ns)
        rh tableRows col flat).2 = true ∧
    ((buildState (HNode.node idn name parent children :: ns)
        rh tableRows col flat).1.recs.getD 0 default).row.selfId = some idn ∧
    ((buildState (HNode.node idn name parent children :: ns)
        rh tableRows col flat).1.recs.getD 0 default).row.clsLevel = some 0 := by
  have hle : ¬ (0 ≤ col) := by omega
  simp [buildState, parseHierarchy, parseStep, collapseButtonOk, hle, setupMeta]

/-- Witness for C9: the theorem applied to the worked example with column
`-1`. -/
theorem c9_no_validation_mutates_first_row_witness :
    ((-1 : Int) < 0) ∧
    ((buildState (HNode.node "A" "Region" ""
        [HNode.node "B" "Region/North" "A" []] :: []) exRH exRows (-1)
        false).2 = true ∧
     ((buildState (HNode.node "A" "Region" ""
        [HNode.node "B" "Region/North" "A" []] :: []) exRH exRows (-1)
        false).1.recs.getD 0 default).row.selfId = some "A" ∧
     ((buildState (HNode.node "A" "Region" ""
        [HNode.node "B" "Region/North" "A" []] :: []) exRH exRows (-1)
        false).1.recs.getD 0 default).row.clsLevel = some 0) :=
  ⟨by decide,
   (c9_no_validation_mutates_first_row "A" "Region" ""
      [HNode.node "B" "Region/North" "A" []] [] exRH exRows false (-1)
      (by decide)).1,
   (c9_no_validation_mutates_first_row "A" "Region" ""
      [HNode.node "B" "Region/North" "A" []] [] exRH exRows false (-1)
      (by decide)).2.1,
   (c9_no_validation_mutates_first_row "A" "Region" ""
      [HNode.node "B" "Region/North" "A" []] [] exRH exRows false (-1)
      (by decide)).2.2⟩

/-! ### C10 — the `hidden` getter can never return `false` -/

/-- Membership in a point update comes from the original list or from the
update applied to one of its members. -/
theorem mem_modifyNth {f : Rec → Rec} {i : Nat} {l : List Rec} {r : Rec}
    (h : r ∈ modifyNth f i l) : r ∈ l ∨ ∃ x, x ∈ l ∧ r = f x := by
  induction l generalizing i with
  | nil => simp [modifyNth] at h
  | cons a as ih =>
    cases i with
    | zero =>
      rcases List.mem_cons.mp h with h1 | h1
      · exact Or.inr ⟨a, List.mem_cons_self a as, h1⟩
      · exact Or.inl (List.mem_cons_of_mem _ h1)
    | succ n =>
      rcases List.mem_cons.mp h with h1 | h1
      · exact Or.inl (by simp [h1])
      · rcases ih h1 with h2 | ⟨x, hx, hr⟩
        · exact Or.inl (List.mem_cons_of_mem _ h2)
        · exact Or.inr ⟨x, List.mem_cons_of_mem _ hx, hr⟩

/-- `meta.hidden = v` keeps every `hidden` flag set. -/
theorem allHidden_setHiddenAt {st : HState} (i : Nat) (v : Bool)
    (h : AllHidden st) : AllHidden (setHiddenAt st i v) := by
  intro r hr
  rcases mem_modifyNth hr with h1 | ⟨x, hx, rfl⟩
  · exact h r h1
  · simp [metaSetHidden]

/-- The `collapsed` setter does not touch the `hidden` flag. -/
theorem allHidden_setCollapsedAt {st : HState} (i : Nat) (v : Bool)
    (h : AllHidden st) : AllHidden (setCollapsedAt st i v) := by
  intro r hr
  rcases mem_modifyNth hr with h1 | ⟨x, hx, rfl⟩
  · exact h r h1
  · cases v <;> simp [metaSetCollapsed, h x hx]

/-- Adding the highlight class does not touch the `hidden` flag. -/
theorem allHidden_addMatchedAt {st : HState} (i : Nat)
    (h : AllHidden st) : AllHidden (addMatchedAt st i) := by
  intro r hr
  rcases mem_modifyNth hr with h1 | ⟨x, hx, rfl⟩
  · exact h r h1
  · simpa using h x hx

/-- The `toggleHiddenRows` loop keeps every `hidden` flag set. -/
theorem allHidden_procChildren (js : List Nat) {st : HState} (p : Nat)
    (h : AllHidden st) : AllHidden (procChildren st p js).1 := by
  induction js generalizing st with
  | nil => exact h
  | cons c cs ih =>
    simp only [procChildren]
    split
    · split
      · exact allHidden_setCollapsedAt _ _ (allHidden_setHiddenAt _ _ h)
      · exact ih (allHidden_setHiddenAt _ _ h)
    · exact ih (allHidden_setHiddenAt _ _ h)

/-- `toggleHiddenRows` keeps every `hidden` flag set. -/
theorem allHidden_toggleHiddenRows {st : HState} (i : Nat)
    (h : AllHidden st) : AllHidden (toggleHiddenRows st i).1 := by
  simp only [toggleHiddenRows]
  split
  · exact allHidden_procChildren _ _ h
  · exact h

/-- A collapse-button click keeps every `hidden` flag set. -/
theorem allHidden_collapseButtonClick {st : HState} (i : Nat)
    (h : AllHidden st) : AllHidden (collapseButtonClick st i).1 :=
  allHidden_toggleHiddenRows i (allHidden_setCollapsedAt i _ h)

/-- The ancestor walk keeps every `hidden` flag set. -/
theorem allHidden_uncollapseParents (fuel : Nat) (st : HState) (pid : String)
    (h : AllHidden st) : AllHidden (uncollapseParents fuel st pid).1 := by
  induction fuel generalizing st pid with
  | zero => exact h
  | succ f ih =>
    simp only [uncollapseParents]
    split
    · exact h
    · split
      · exact h
      · refine ih _ _ (allHidden_addMatchedAt _ ?_)
        split
        · exact allHidden_setCollapsedAt _ _ h
        · exact h

/-- The descendant-marking walk keeps every `hidden` flag set. -/
theorem allHidden_displayChildrenGo (fuel : Nat) (st : HState)
    (stack : List (List Nat)) (h : AllHidden st) :
    AllHidden (displayChildrenGo fuel st stack) := by
  induction fuel generalizing st stack with
  | zero => exact h
  | succ f ih =>
    match stack with
    | [] => exact h
    | [] :: rest => exact ih _ _ h
    | (c :: cs) :: rest => exact ih _ _ (allHidden_addMatchedAt _ h)

/-- `displayChildren` keeps every `hidden` flag set. -/
theorem allHidden_displayChildren (fuel : Nat) (st : HState) (i : Nat)
    (h : AllHidden st) : AllHidden (displayChildren fuel st i) := by
  simp only [displayChildren]
  split
  · exact allHidden_displayChildrenGo _ _ _ h
  · exact h

/-- One search step keeps every `hidden` flag set. -/
theorem allHidden_searchStep (fuel : Nat) (st : HState) (i : Nat)
    (h : AllHidden st) : AllHidden (searchStep fuel st i).1 := by
  simp only [searchStep]
  split
  next st2 heq =>
    have := allHidden_uncollapseParents fuel (addMatchedAt st i)
      (((addMatchedAt st i).recs.getD i default).parent)
      (allHidden_addMatchedAt i h)
    rw [heq] at this
    exact this
  next st2 heq =>
    have := allHidden_uncollapseParents fuel (addMatchedAt st i)
      (((addMatchedAt st i).recs.getD i default).parent)
      (allHidden_addMatchedAt i h)
    rw [heq] at this
    exact allHidden_displayChildren _ _ _ this

/-- Processing the matched list keeps every `hidden` flag set. -/
theorem allHidden_searchList (fuel : Nat) (js : List Nat) {st : HState}
    (h : AllHidden st) : AllHidden (searchList fuel js st).1 := by
  induction js generalizing st with
  | nil => exact h
  | cons i is ih =>
    simp only [searchList]
    split
    next st1 heq =>
      have := allHidden_searchStep fuel st i h
      rw [heq] at this
      exact this
    next st1 heq =>
      have := allHidden_searchStep fuel st i h
      rw [heq] at this
      exact ih this

/-- `searchRowheaders` keeps every `hidden` flag set. -/
theorem allHidden_searchRowheaders (st : HState) (q : String)
    (h : AllHidden st) : AllHidden (searchRowheaders st q).1 :=
  allHidden_searchList _ _ h

/-- The flat setter keeps every `hidden` flag set. -/
theorem allHidden_setFlatState (st : HState) (b : Bool)
    (h : AllHidden st) : AllHidden (setFlatState st b) := by
  intro r hr
  simp only [setFlatState, List.mem_map] at hr
  obtain ⟨x, hx, rfl⟩ := hr
  simpa [updateCategoryLabel] using h x hx

/-- Every user operation keeps every `hidden` flag set. -/
theorem allHidden_applyOp (st : HState) (op : Op)
    (h : AllHidden st) : AllHidden (applyOp st op) := by
  cases op with
  | toggle i => exact allHidden_collapseButtonClick i h
  | setFlat b => exact allHidden_setFlatState st b h
  | search q => exact allHidden_searchRowheaders st q h

/-- Any sequence of user operations keeps every `hidden` flag set. -/
theorem allHidden_applyOps (ops : List Op) (st : HState)
    (h : AllHidden st) : AllHidden (applyOps st ops) := by
  induction ops generalizing st with
  | nil => exact h
  | cons op ops ih => exact ih _ (allHidden_applyOp st op h)

/-- Membership in the error-propagating `if` of `parseStep`'s child step. -/
theorem mem_ifPair {P : Rec → Prop} (g : List Rec → List Rec × Bool)
    (X : List Rec × Bool)
    (h1 : ∀ r ∈ X.1, P r) (h2 : ∀ r ∈ (g X.1).1, P r) :
    ∀ r ∈ (if X.2 = true then X else g X.1).1, P r := by
  intro r hr
  by_cases hx : X.2 = true
  · rw [if_pos hx] at hr
    exact h1 r hr
  · rw [if_neg hx] at hr
    exact h2 r hr

/-- One `parseStep` layer only pushes records with `hidden = true`, provided
the continuation does. -/
theorem parseStep_hidden (col : Int) (rowOf : String → Row) (flat : Bool)
    (recC : List HNode → Nat → List Rec → List Rec × Bool)
    (hrec : ∀ ns lvl a, (∀ r ∈ a, r.hidden = true) →
      ∀ r ∈ (recC ns lvl a).1, r.hidden = true) :
    ∀ ns lvl a, (∀ r ∈ a, r.hidden = true) →
      ∀ r ∈ (parseStep col rowOf flat recC ns lvl a).1, r.hidden = true := by
  intro ns
  induction ns with
  | nil => intro lvl a ha; simpa [parseStep] using ha
  | cons n ns ih =>
    obtain ⟨id, name, parent, children⟩ := n
    intro lvl a ha
    have ha1 : ∀ (hc : Bool) (cl : Option Bool) (rw2 : Row) (ac : String),
        ∀ r ∈ a ++ [{ id := id, flatName := name, name := lastSegment name,
                      parent := parent, level := lvl, hasChildren := hc,
                      hidden := true, collapsed := cl, row := rw2,
                      arrayCol := ac : Rec }],
          r.hidden = true := by
      intro hc cl rw2 ac r hr
      rcases List.mem_append.mp hr with h1 | h1
      · exact ha r h1
      · simp at h1
        simp [h1]
    simp only [parseStep, setupMeta]
    intro r hr
    repeat split at hr
    all_goals first
      | exact ha1 _ _ _ _ r hr
      | exact hrec _ _ _ (ha1 _ _ _ _) r hr
      | exact ih _ _ (ha1 _ _ _ _) r hr
      | exact ih _ _ (hrec _ _ _ (ha1 _ _ _ _)) r hr
      | exact mem_ifPair (parseStep col rowOf flat recC ns lvl) _
          (hrec _ _ _ (ha1 _ _ _ _)) (ih _ _ (hrec _ _ _ (ha1 _ _ _ _))) r hr

/-- Immediately after construction every record has `hidden = true`. -/
theorem allHidden_buildState (forest : List HNode) (rh : String → Nat)
    (tableRows : Nat → Row) (col : Int) (flat : Bool) :
    AllHidden (buildState forest rh tableRows col flat).1 := by
  have h3 := parseStep_hidden col (fun id => tableRows (rh id)) flat
    (fun _ _ a => (a, false)) (fun ns lvl a ha => ha)
  have h2 := parseStep_hidden col (fun id => tableRows (rh id)) flat _ h3
  have h1 := parseStep_hidden col (fun id => tableRows (rh id)) flat _ h2
  intro r hr
  rcases hp : parseHierarchy col (fun id => tableRows (rh id)) flat forest 0 []
    with ⟨recs, err⟩
  have := h1 forest 0 [] (by simp)
  rw [show parseStep col (fun id => tableRows (rh id)) flat _ forest 0 []
      = parseHierarchy col (fun id => tableRows (rh id)) flat forest 0 [] from rfl,
    hp] at this
  simp only [buildState, hp] at hr
  exact this r hr

/-- C10: reading `meta.hidden` returns `true` at all times — after
construction and after any sequence of toggle, flat-mode and search
operations — because the flag is initialized `true` on every record and the
setter stores `true` regardless of the assigned value. -/
theorem c10_hidden_getter_always_true (forest : List HNode) (rh : String → Nat)
    (tableRows : Nat → Row) (col : Int) (flat : Bool) (ops : List Op) (r : Rec)
    (hr : r ∈ (applyOps (buildState forest rh tableRows col flat).1 ops).recs) :
    r.hidden = true :=
  allHidden_applyOps ops _ (allHidden_buildState forest rh tableRows col flat)
    r hr

/-- Witness for C10: in the worked example, after a click that uncollapses
`A` (which assigns `hidden = false` to `B` through the setter), `B`'s
`hidden` getter still returns `true`. -/
theorem c10_hidden_getter_always_true_witness :
    ((applyOps (buildState exForest exRH exRows 0 false).1
        [Op.toggle 0]).recs.getD 1 default
      ∈ (applyOps (buildState exForest exRH exRows 0 false).1
          [Op.toggle 0]).recs) ∧
    ((applyOps (buildState exForest exRH exRows 0 false).1
        [Op.toggle 0]).recs.getD 1 default).hidden = true :=
  ⟨by decide,
   c10_hidden_getter_always_true exForest exRH exRows 0 false [Op.toggle 0] _
     (by decide)⟩

/-! ### C7 — infrastructure: point updates and search-step preservation -/

/-- A point update does not change the length. -/
theorem length_modifyNth (f : Rec → Rec) (i : Nat) (l : List Rec) :
    (modifyNth f i l).length = l.length := by
  induction l generalizing i with
  | nil => simp [modifyNth]
  | cons r rs ih => cases i <;> simp [modifyNth, ih]

/-- Indexing into a point update. -/
theorem getD_modifyNth (f : Rec → Rec) (i j : Nat) (l : List Rec) :
    (modifyNth f i l).getD j default =
      if j = i ∧ j < l.length then f (l.getD j default)
      else l.getD j default := by
  induction l generalizing i j with
  | nil => simp [modifyNth]
  | cons r rs ih =>
    cases i with
    | zero =>
      cases j with
      | zero => simp [modifyNth]
      | succ m => simp [modifyNth]
    | succ n =>
      cases j with
      | zero => simp [modifyNth]
      | succ m =>
        simp only [modifyNth, List.getD_cons_succ, ih n m, List.length_cons]
        simp [Nat.succ_lt_succ_iff]

/-- `SearchPreserves` is reflexive. -/
theorem sp_refl (st : HState) : SearchPreserves st st := by
  refine ⟨rfl, fun j => ?_⟩
  exact ⟨rfl, rfl, rfl, rfl, fun h => h, fun h => h⟩

/-- `SearchPreserves` is transitive. -/
theorem sp_trans {st1 st2 st3 : HState} (h12 : SearchPreserves st1 st2)
    (h23 : SearchPreserves st2 st3) : SearchPreserves st1 st3 := by
  obtain ⟨hl12, hj12⟩ := h12
  obtain ⟨hl23, hj23⟩ := h23
  refine ⟨hl23.trans hl12, fun j => ?_⟩
  obtain ⟨a1, b1, c1, d1, e1, f1⟩ := hj12 j
  obtain ⟨a2, b2, c2, d2, e2, f2⟩ := hj23 j
  exact ⟨a2.trans a1, b2.trans b1, c2.trans c1, d2.trans d1,
    fun h => e2 (e1 h), fun h => f2 (f1 h)⟩

/-- Adding the highlight class is a search-preserving step. -/
theorem sp_addMatchedAt (st : HState) (i : Nat) :
    SearchPreserves st (addMatchedAt st i) := by
  refine ⟨by simp [addMatchedAt, length_modifyNth], fun j => ?_⟩
  simp only [addMatchedAt]
  rw [getD_modifyNth]
  split_ifs <;> simp

/-- Uncollapsing a record is a search-preserving step. -/
theorem sp_setCollapsedAt_false (st : HState) (i : Nat) :
    SearchPreserves st (setCollapsedAt st i false) := by
  refine ⟨by simp [setCollapsedAt, length_modifyNth], fun j => ?_⟩
  simp only [setCollapsedAt]
  rw [getD_modifyNth]
  split_ifs <;> simp [metaSetCollapsed]

/-- The ancestor walk is search-preserving. -/
theorem sp_uncollapseParents (fuel : Nat) (st : HState) (pid : String) :
    SearchPreserves st (uncollapseParents fuel st pid).1 := by
  induction fuel generalizing st pid with
  | zero => exact sp_refl st
  | succ f ih =>
    simp only [uncollapseParents]
    split
    · exact sp_refl st
    · split
      · exact sp_refl st
      · refine sp_trans (sp_trans ?_ (sp_addMatchedAt _ _)) (ih _ _)
        split
        · exact sp_setCollapsedAt_false _ _
        · exact sp_refl st

/-- The descendant-marking walk is search-preserving. -/
theorem sp_displayChildrenGo (fuel : Nat) (st : HState)
    (stack : List (List Nat)) :
    SearchPreserves st (displayChildrenGo fuel st stack) := by
  induction fuel generalizing st stack with
  | zero => exact sp_refl st
  | succ f ih =>
    match stack with
    | [] => exact sp_refl st
    | [] :: rest => exact ih st rest
    | (c :: cs) :: rest =>
      exact sp_trans (sp_addMatchedAt st c) (ih _ _)

/-- `displayChildren` is search-preserving. -/
theorem sp_displayChildren (fuel : Nat) (st : HState) (i : Nat) :
    SearchPreserves st (displayChildren fuel st i) := by
  simp only [displayChildren]
  split
  · exact sp_displayChildrenGo _ _ _
  · exact sp_refl st

/-- One search step is search-preserving. -/
theorem sp_searchStep (fuel : Nat) (st : HState) (i : Nat) :
    SearchPreserves st (searchStep fuel st i).1 := by
  simp only [searchStep]
  split
  next st2 heq =>
    have h := sp_uncollapseParents fuel (addMatchedAt st i)
      (((addMatchedAt st i).recs.getD i default).parent)
    rw [heq] at h
    exact sp_trans (sp_addMatchedAt st i) h
  next st2 heq =>
    have h := sp_uncollapseParents fuel (addMatchedAt st i)
      (((addMatchedAt st i).recs.getD i default).parent)
    rw [heq] at h
    exact sp_trans (sp_trans (sp_addMatchedAt st i) h)
      (sp_displayChildren fuel st2 i)

/-- Processing a matched list is search-preserving. -/
theorem sp_searchList (fuel : Nat) (js : List Nat) (st : HState) :
    SearchPreserves st (searchList fuel js st).1 := by
  induction js generalizing st with
  | nil => exact sp_refl st
  | cons i is ih =>
    simp only [searchList]
    split
    next st1 heq =>
      have h := sp_searchStep fuel st i
      rw [heq] at h
      exact h
    next st1 heq =>
      have h := sp_searchStep fuel st i
      rw [heq] at h
      exact sp_trans h (ih st1)

/-- A successful id lookup returns a position inside the record list. -/
theorem findPos_lt {st : HState} {pid : String} {q : Nat}
    (h : findPos st pid = some q) : q < st.recs.length := by
  have hm := List.mem_of_find?_eq_some h
  exact List.mem_range.mp hm

/-- `find?` only depends on the predicate's values on the list. -/
theorem find?_congr_list {p q : Nat → Bool} :
    ∀ (l : List Nat), (∀ x ∈ l, p x = q x) → l.find? p = l.find? q
  | [], _ => rfl
  | a :: l, h => by
    simp only [List.find?]
    rw [h a (List.mem_cons_self a l)]
    cases hq : q a
    · exact find?_congr_list l (fun x hx => h x (List.mem_cons_of_mem a hx))
    · rfl

/-- Id lookup is stable under search-preserving mutation. -/
theorem findPos_sp {st stA : HState} (h : SearchPreserves st stA)
    (pid : String) : findPos stA pid = findPos st pid := by
  simp only [findPos, h.1]
  exact find?_congr_list _ (fun x _ => by rw [(h.2 x).1])

/-- The ancestor chain is stable under search-preserving mutation. -/
theorem ancestorChain_sp (fuel : Nat) {st stA : HState}
    (h : SearchPreserves st stA) (pid : String) :
    ancestorChain fuel stA pid = ancestorChain fuel st pid := by
  induction fuel generalizing pid with
  | zero => rfl
  | succ f ih =>
    simp only [ancestorChain]
    split
    · rfl
    · rw [findPos_sp h pid]
      split
      · rfl
      · next p heq => rw [(h.2 p).2.1, ih]

/-- C7 (amended): the ancestor walk of the search marks every ancestor on the
`parentId` chain with the highlight class and leaves none of them collapsed
(uncollapsing, through the setter's class/event side effects, exactly those
that were collapsed) — but it modifies no record's hidden marker class, so
the matched row itself is not revealed. -/
theorem c7_uncollapse_ancestors (fuel : Nat) (st : HState) (pid : String) :
    (∀ j, ((uncollapseParents fuel st pid).1.recs.getD j default).row.clsHidden
        = (st.recs.getD j default).row.clsHidden) ∧
    ∀ p ∈ ancestorChain fuel st pid,
      ((uncollapseParents fuel st pid).1.recs.getD p default).row.clsMatched
        = true ∧
      ((uncollapseParents fuel st pid).1.recs.getD p default).collapsed
        ≠ some true := by
  refine ⟨fun j => ((sp_uncollapseParents fuel st pid).2 j).2.2.2.1, ?_⟩
  induction fuel generalizing st pid with
  | zero =>
    intro p hp
    simp [ancestorChain] at hp
  | succ f ih =>
    intro p hp
    simp only [ancestorChain] at hp
    simp only [uncollapseParents]
    by_cases hpid : pid = ""
    · simp [hpid] at hp
    · rw [if_neg hpid] at hp
      rw [if_neg hpid]
      split
      · next heq =>
        rw [heq] at hp
        simp at hp
      · next q heq =>
        rw [heq] at hp
        simp only [] at hp
        have hqlen : q < st.recs.length := findPos_lt heq
        have hsp1 : SearchPreserves st
            (if jsTruthy ((st.recs.getD q default).collapsed)
             then setCollapsedAt st q false else st) := by
          split
          · exact sp_setCollapsedAt_false st q
          · exact sp_refl st
        have hq1 : ((if jsTruthy ((st.recs.getD q default).collapsed)
            then setCollapsedAt st q false else st).recs.getD q
              default).collapsed ≠ some true := by
          intro hcon
          by_cases hc : jsTruthy ((st.recs.getD q default).collapsed) = true
          · rw [if_pos hc] at hcon
            rw [show (setCollapsedAt st q false).recs
                = modifyNth (metaSetCollapsed false) q st.recs from rfl,
              getD_modifyNth, if_pos ⟨rfl, hqlen⟩] at hcon
            simp [metaSetCollapsed] at hcon
          · rw [if_neg hc] at hcon
            exact hc (by rw [hcon]; rfl)
        have hqlen1 : q < (if jsTruthy ((st.recs.getD q default).collapsed)
            then setCollapsedAt st q false else st).recs.length := by
          rw [hsp1.1]
          exact hqlen
        have hq2m : ((addMatchedAt (if jsTruthy ((st.recs.getD q
            default).collapsed) then setCollapsedAt st q false else st)
              q).recs.getD q default).row.clsMatched = true := by
          rw [show (addMatchedAt (if jsTruthy ((st.recs.getD q
              default).collapsed) then setCollapsedAt st q false else st)
                q).recs
              = modifyNth
                  (fun r => { r with row := { r.row with clsMatched := true } })
                  q (if jsTruthy ((st.recs.getD q default).collapsed)
                     then setCollapsedAt st q false else st).recs from rfl,
            getD_modifyNth, if_pos ⟨rfl, hqlen1⟩]
        have hq2c : ((addMatchedAt (if jsTruthy ((st.recs.getD q
            default).collapsed) then setCollapsedAt st q false else st)
              q).recs.getD q default).collapsed ≠ some true := by
          rw [show (addMatchedAt (if jsTruthy ((st.recs.getD q
              default).collapsed) then setCollapsedAt st q false else st)
                q).recs
              = modifyNth
                  (fun r => { r with row := { r.row with clsMatched := true } })
                  q (if jsTruthy ((st.recs.getD q default).collapsed)
                     then setCollapsedAt st q false else st).recs from rfl,
            getD_modifyNth, if_pos ⟨rfl, hqlen1⟩]
          exact hq1
        have hspA : SearchPreserves st
            (addMatchedAt (if jsTruthy ((st.recs.getD q default).collapsed)
              then setCollapsedAt st q false else st) q) :=
          sp_trans hsp1 (sp_addMatchedAt _ q)
        have hsp2 := sp_uncollapseParents f
          (addMatchedAt (if jsTruthy ((st.recs.getD q default).collapsed)
            then setCollapsedAt st q false else st) q)
          (((addMatchedAt (if jsTruthy ((st.recs.getD q default).collapsed)
            then setCollapsedAt st q false else st) q).recs.getD q
              default).parent)
        rcases List.mem_cons.mp hp with hpq | hp
        · subst hpq
          exact ⟨((hsp2.2 p).2.2.2.2.1) hq2m, ((hsp2.2 p).2.2.2.2.2) hq2c⟩
        · have hpid2 : ((addMatchedAt (if jsTruthy ((st.recs.getD q
              default).collapsed) then setCollapsedAt st q false else st)
                q).recs.getD q default).parent
              = (st.recs.getD q default).parent := (hspA.2 q).2.1
          have hp2 : p ∈ ancestorChain f
              (addMatchedAt (if jsTruthy ((st.recs.getD q default).collapsed)
                then setCollapsedAt st q false else st) q)
              (((addMatchedAt (if jsTruthy ((st.recs.getD q
                default).collapsed) then setCollapsedAt st q false else st)
                  q).recs.getD q default).parent) := by
            rw [hpid2, ancestorChain_sp f hspA]
            exact hp
          exact ih _ _ p hp2

/-- Witness for C7: on the fresh worked example, walking up from `B`'s
parent id (`"A"`) visits exactly position 0; the theorem yields that `A`
ends highlighted and not collapsed while `B`'s hidden marker is untouched. -/
theorem c7_uncollapse_ancestors_witness :
    (0 ∈ ancestorChain 2 exState "A") ∧
    ((uncollapseParents 2 exState "A").1.recs.getD 1 default).row.clsHidden
      = (exState.recs.getD 1 default).row.clsHidden ∧
    ((uncollapseParents 2 exState "A").1.recs.getD 0 default).row.clsMatched
      = true ∧
    ((uncollapseParents 2 exState "A").1.recs.getD 0 default).collapsed
      ≠ some true :=
  ⟨by decide,
   (c7_uncollapse_ancestors 2 exState "A").1 1,
   ((c7_uncollapse_ancestors 2 exState "A").2 0 (by decide)).1,
   ((c7_uncollapse_ancestors 2 exState "A").2 0 (by decide)).2⟩

/-! ### C8 — the empty query matches every record -/

/-- The empty pattern matches every string (as the empty JavaScript regex
does). -/
theorem regexTestGi_empty (s : String) : regexTestGi "" s = true := by
  show hasSubSeq (jsToLower "").data (jsToLower s).data = true
  have h0 : (jsToLower "").data = [] := rfl
  rw [h0]
  cases h : (jsToLower s).data with
  | nil => rfl
  | cons c cs => simp [hasSubSeq, startsWithSeq]

/-- Search-preserving mutation keeps the parent pointers well-formed. -/
theorem wfparents_sp {st stA : HState} (hsp : SearchPreserves st stA)
    (h : WFparents st) : WFparents stA := by
  intro i hi
  rw [List.mem_range, hsp.1] at hi
  rcases h i (List.mem_range.mpr hi) with h1 | ⟨j, hj, hid⟩
  · left
    rw [(hsp.2 i).2.1]
    exact h1
  · right
    refine ⟨j, ?_, ?_⟩
    · rw [List.mem_range, hsp.1]
      exact List.mem_range.mp hj
    · rw [(hsp.2 j).1, (hsp.2 i).2.1]
      exact hid

/-- If some record carries the id, the lookup succeeds. -/
theorem findPos_of_exists {st : HState} {pid : String}
    (h : ∃ j ∈ List.range st.recs.length,
      (st.recs.getD j default).id = pid) :
    ∃ q, findPos st pid = some q := by
  have hsome : ((List.range st.recs.length).find?
      (fun i => (st.recs.getD i default).id == pid)).isSome := by
    rw [List.find?_isSome]
    obtain ⟨j, hj, hid⟩ := h
    refine ⟨j, hj, ?_⟩
    show ((st.recs.getD j default).id == pid) = true
    rw [hid]
    exact beq_self_eq_true pid
  obtain ⟨q, hq⟩ := Option.isSome_iff_exists.mp hsome
  exact ⟨q, hq⟩

/-- On well-formed parent pointers the ancestor walk never throws. -/
theorem uncollapseParents_noerr (fuel : Nat) :
    ∀ (st : HState) (pid : String), WFparents st →
      (pid = "" ∨ ∃ j ∈ List.range st.recs.length,
        (st.recs.getD j default).id = pid) →
      (uncollapseParents fuel st pid).2 = false := by
  induction fuel with
  | zero => intro st pid _ _; rfl
  | succ f ih =>
    intro st pid hwf hpid
    simp only [uncollapseParents]
    by_cases hp : pid = ""
    · simp [hp]
    · rw [if_neg hp]
      rcases hpid with h | hex
      · exact absurd h hp
      · obtain ⟨q, hfp⟩ := findPos_of_exists hex
        split
        · next heq =>
          rw [heq] at hfp
          simp at hfp
        · next q2 heq =>
          have hq2len : q2 < st.recs.length := findPos_lt heq
          have hsp1 : SearchPreserves st
              (if jsTruthy ((st.recs.getD q2 default).collapsed)
               then setCollapsedAt st q2 false else st) := by
            split
            · exact sp_setCollapsedAt_false st q2
            · exact sp_refl st
          have hspA : SearchPreserves st
              (addMatchedAt (if jsTruthy ((st.recs.getD q2
                default).collapsed) then setCollapsedAt st q2 false else st)
                  q2) :=
            sp_trans hsp1 (sp_addMatchedAt _ q2)
          apply ih
          · exact wfparents_sp hspA hwf
          · rw [(hspA.2 q2).2.1]
            rcases hwf q2 (List.mem_range.mpr hq2len) with h1 | ⟨j, hj, hid⟩
            · exact Or.inl h1
            · refine Or.inr ⟨j, ?_, ?_⟩
              · rw [List.mem_range, hspA.1]
                exact List.mem_range.mp hj
              · rw [(hspA.2 j).1]
                exact hid

/-- On well-formed parent pointers one search step succeeds and leaves the
processed record highlighted. -/
theorem searchStep_noerr_marks (fuel : Nat) (st : HState) (i : Nat)
    (hwf : WFparents st) (hi : i < st.recs.length) :
    (searchStep fuel st i).2 = false ∧
    ((searchStep fuel st i).1.recs.getD i default).row.clsMatched = true := by
  have hm0 : ((addMatchedAt st i).recs.getD i default).row.clsMatched
      = true := by
    rw [show (addMatchedAt st i).recs
        = modifyNth (fun r => { r with row := { r.row with
            clsMatched := true } }) i st.recs from rfl,
      getD_modifyNth, if_pos ⟨rfl, hi⟩]
  have hwf1 : WFparents (addMatchedAt st i) :=
    wfparents_sp (sp_addMatchedAt st i) hwf
  have hnoerr : (uncollapseParents fuel (addMatchedAt st i)
      (((addMatchedAt st i).recs.getD i default).parent)).2 = false := by
    apply uncollapseParents_noerr fuel _ _ hwf1
    rw [((sp_addMatchedAt st i).2 i).2.1]
    rcases hwf i (List.mem_range.mpr hi) with h1 | ⟨j, hj, hid⟩
    · exact Or.inl h1
    · refine Or.inr ⟨j, ?_, ?_⟩
      · rw [List.mem_range, (sp_addMatchedAt st i).1]
        exact List.mem_range.mp hj
      · rw [((sp_addMatchedAt st i).2 j).1]
        exact hid
  constructor
  · simp only [searchStep]
    split
    · next st2 heq =>
      rw [heq] at hnoerr
      simp at hnoerr
    · next st2 heq => rfl
  · simp only [searchStep]
    split
    · next st2 heq =>
      have h := sp_uncollapseParents fuel (addMatchedAt st i)
        (((addMatchedAt st i).recs.getD i default).parent)
      rw [heq] at h
      exact (h.2 i).2.2.2.2.1 hm0
    · next st2 heq =>
      have h := sp_uncollapseParents fuel (addMatchedAt st i)
        (((addMatchedAt st i).recs.getD i default).parent)
      rw [heq] at h
      exact ((sp_displayChildren fuel st2 i).2 i).2.2.2.2.1
        ((h.2 i).2.2.2.2.1 hm0)

/-- On well-formed parent pointers, processing a list of in-range positions
succeeds and leaves every one of them highlighted. -/
theorem searchList_marks (fuel : Nat) (js : List Nat) :
    ∀ (st : HState), WFparents st → (∀ j ∈ js, j < st.recs.length) →
      (searchList fuel js st).2 = false ∧
      ∀ j ∈ js, ((searchList fuel js st).1.recs.getD j
        default).row.clsMatched = true := by
  induction js with
  | nil => intro st _ _; exact ⟨rfl, by simp⟩
  | cons i is ih =>
    intro st hwf hjs
    have hi : i < st.recs.length := hjs i (List.mem_cons_self i is)
    obtain ⟨hserr, hsm⟩ := searchStep_noerr_marks fuel st i hwf hi
    have hsp := sp_searchStep fuel st i
    have hwf2 : WFparents (searchStep fuel st i).1 := wfparents_sp hsp hwf
    have hjs2 : ∀ j ∈ is, j < (searchStep fuel st i).1.recs.length := by
      intro j hj
      rw [hsp.1]
      exact hjs j (List.mem_cons_of_mem i hj)
    obtain ⟨herr2, hm2⟩ := ih (searchStep fuel st i).1 hwf2 hjs2
    constructor
    · simp only [searchList]
      split
      · next st1 heq =>
        rw [heq] at hserr
        simp at hserr
      · next st1 heq =>
        have h1 : (searchStep fuel st i).1 = st1 := congrArg Prod.fst heq
        rw [← h1]
        exact herr2
    · intro j hj
      simp only [searchList]
      split
      · next st1 heq =>
        rw [heq] at hserr
        simp at hserr
      · next st1 heq =>
        have h1 : (searchStep fuel st i).1 = st1 := congrArg Prod.fst heq
        rcases List.mem_cons.mp hj with rfl | hj2
        · have hpers := sp_searchList fuel is st1
          have hst1 : (st1.recs.getD j default).row.clsMatched = true := by
            rw [← h1]
            exact hsm
          exact (hpers.2 j).2.2.2.2.1 hst1
        · rw [← h1]
          exact hm2 j hj2

/-- C8 (amended): searching with the empty query matches every record — the
empty pattern matches every name — so the search succeeds and every record
ends up carrying the highlight class (for well-formed parent pointers, as
any backend-built hierarchy has). -/
theorem c8_empty_query_matches_all (st : HState) (hwf : WFparents st)
    (i : Nat) (hi : i < st.recs.length) :
    (searchRowheaders st "").2 = false ∧
    ((searchRowheaders st "").1.recs.getD i default).row.clsMatched
      = true := by
  have hfilter : (List.range st.recs.length).filter
      (fun k => regexTestGi "" (if st.flat
        then (st.recs.getD k default).flatName
        else (st.recs.getD k default).name)) = List.range st.recs.length :=
    List.filter_eq_self.mpr (fun a _ => regexTestGi_empty _)
  simp only [searchRowheaders]
  rw [hfilter]
  obtain ⟨herr, hmarks⟩ := searchList_marks
    ((st.recs.length + 1) * (st.recs.length + 1))
    (List.range st.recs.length) st hwf (fun j hj => List.mem_range.mp hj)
  exact ⟨herr, hmarks i (List.mem_range.mpr hi)⟩

/-- Witness for C8: the fresh worked example has well-formed parents, and
searching the empty query highlights its first record. -/
theorem c8_empty_query_matches_all_witness :
    WFparents exState ∧ 0 < exState.recs.length ∧
    ((searchRowheaders exState "").2 = false ∧
     ((searchRowheaders exState "").1.recs.getD 0 default).row.clsMatched
       = true) :=
  ⟨by unfold WFparents; decide, by decide,
   c8_empty_query_matches_all exState (by unfold WFparents; decide) 0
     (by decide)⟩

/-! ### C6 — infrastructure: the no-cascade toggle characterization -/

/-- The `collapsed` setter stores the value and touches neither the `hidden`
flag, the hidden marker, the structural fields, nor the ids. -/
theorem metaSetCollapsed_fields (v : Bool) (r : Rec) :
    (metaSetCollapsed v r).collapsed = some v ∧
    (metaSetCollapsed v r).hidden = r.hidden ∧
    (metaSetCollapsed v r).row.clsHidden = r.row.clsHidden ∧
    (metaSetCollapsed v r).hasChildren = r.hasChildren ∧
    (metaSetCollapsed v r).id = r.id ∧
    (metaSetCollapsed v r).parent = r.parent := by
  cases v <;> simp [metaSetCollapsed]

/-- The `hidden` setter pins the flag `true`, drives the marker from the
value, and touches nothing else. -/
theorem metaSetHidden_fields (v : Bool) (r : Rec) :
    (metaSetHidden v r).collapsed = r.collapsed ∧
    (metaSetHidden v r).hidden = true ∧
    (metaSetHidden v r).row.clsHidden = v ∧
    (metaSetHidden v r).hasChildren = r.hasChildren ∧
    (metaSetHidden v r).id = r.id ∧
    (metaSetHidden v r).parent = r.parent := by
  simp [metaSetHidden]

/-- A second `hidden` assignment overwrites the first. -/
theorem metaSetHidden_after (v w : Bool) (r : Rec) :
    metaSetHidden v (metaSetHidden w r) = metaSetHidden v r := rfl

/-- Indexing after a `collapsed` assignment. -/
theorem getD_setCollapsedAt (st : HState) (k j : Nat) (v : Bool) :
    (setCollapsedAt st k v).recs.getD j default
      = if j = k ∧ j < st.recs.length
        then metaSetCollapsed v (st.recs.getD j default)
        else st.recs.getD j default :=
  getD_modifyNth _ _ _ _

/-- Indexing after a `hidden` assignment. -/
theorem getD_setHiddenAt (st : HState) (k j : Nat) (v : Bool) :
    (setHiddenAt st k v).recs.getD j default
      = if j = k ∧ j < st.recs.length
        then metaSetHidden v (st.recs.getD j default)
        else st.recs.getD j default :=
  getD_modifyNth _ _ _ _

/-- A `collapsed` assignment keeps the length. -/
theorem length_setCollapsedAt (st : HState) (k : Nat) (v : Bool) :
    (setCollapsedAt st k v).recs.length = st.recs.length :=
  length_modifyNth _ _ _

/-- A `hidden` assignment keeps the length. -/
theorem length_setHiddenAt (st : HState) (k : Nat) (v : Bool) :
    (setHiddenAt st k v).recs.length = st.recs.length :=
  length_modifyNth _ _ _

/-- A `collapsed` assignment changes no `parent` attribute. -/
theorem parent_setCollapsedAt (st : HState) (k : Nat) (v : Bool) (j : Nat) :
    ((setCollapsedAt st k v).recs.getD j default).parent
      = (st.recs.getD j default).parent := by
  rw [getD_setCollapsedAt]
  split_ifs
  · exact (metaSetCollapsed_fields v _).2.2.2.2.2
  · rfl

/-- A `hidden` assignment changes no `parent` attribute. -/
theorem parent_setHiddenAt (st : HState) (k : Nat) (v : Bool) (j : Nat) :
    ((setHiddenAt st k v).recs.getD j default).parent
      = (st.recs.getD j default).parent := by
  rw [getD_setHiddenAt]
  split_ifs
  · exact (metaSetHidden_fields v _).2.2.2.2.2
  · rfl

/-- Child positions only depend on the lengths and the parent attributes. -/
theorem childPositions_congr {st stA : HState}
    (hlen : stA.recs.length = st.recs.length)
    (hpar : ∀ j, (stA.recs.getD j default).parent
      = (st.recs.getD j default).parent) (pid : String) :
    childPositions stA pid = childPositions st pid := by
  simp only [childPositions, hlen]
  exact List.filter_congr (fun x _ => by rw [hpar x])

/-- Child positions are in range. -/
theorem childPositions_lt {st : HState} {pid : String} {j : Nat}
    (h : j ∈ childPositions st pid) : j < st.recs.length :=
  List.mem_range.mp (List.mem_of_mem_filter h)

/-- The `toggleHiddenRows` loop, when every processed child that has
children is already collapsed (and the parent is not among them): it never
reaches the broken cascade call, and it exactly assigns `hidden = v` (the
parent's collapsed state) to the processed children. -/
theorem procChildren_no_cascade (p : Nat) (v : Bool) :
    ∀ (js : List Nat) (st : HState),
      jsTruthy ((st.recs.getD p default).collapsed) = v →
      (∀ j ∈ js, j ≠ p ∧
        ((st.recs.getD j default).hasChildren = true →
          (st.recs.getD j default).collapsed = some true)) →
      (procChildren st p js).2 = false ∧
      (procChildren st p js).1.recs.length = st.recs.length ∧
      ∀ j, (procChildren st p js).1.recs.getD j default
        = if j ∈ js ∧ j < st.recs.length
          then metaSetHidden v (st.recs.getD j default)
          else st.recs.getD j default := by
  intro js
  induction js with
  | nil =>
    intro st _ _
    refine ⟨rfl, rfl, fun j => ?_⟩
    rw [if_neg (by simp)]
    rfl
  | cons ch cs ihcs =>
    intro st hv hjs
    obtain ⟨hne, hcasc⟩ := hjs ch (List.mem_cons_self ch cs)
    have hv1 : jsTruthy (((setHiddenAt st ch v).recs.getD p
        default).collapsed) = v := by
      rw [getD_setHiddenAt, if_neg (fun hcon => hne hcon.1.symm)]
      exact hv
    have hjs1 : ∀ j ∈ cs, j ≠ p ∧
        (((setHiddenAt st ch v).recs.getD j default).hasChildren = true →
          ((setHiddenAt st ch v).recs.getD j default).collapsed
            = some true) := by
      intro j hj
      obtain ⟨hjp, hjc⟩ := hjs j (List.mem_cons_of_mem ch hj)
      refine ⟨hjp, ?_⟩
      rw [getD_setHiddenAt]
      split_ifs
      · simpa [metaSetHidden] using hjc
      · exact hjc
    have hassemble : ∀ (res : HState × Bool),
        res = procChildren (setHiddenAt st ch v) p cs →
        res.2 = false ∧
        res.1.recs.length = st.recs.length ∧
        ∀ j, res.1.recs.getD j default
          = if j ∈ ch :: cs ∧ j < st.recs.length
            then metaSetHidden v (st.recs.getD j default)
            else st.recs.getD j default := by
      rintro res rfl
      obtain ⟨ierr, ilen, iget⟩ := ihcs (setHiddenAt st ch v) hv1 hjs1
      refine ⟨ierr, by rw [ilen, length_setHiddenAt], fun j => ?_⟩
      rw [iget j, length_setHiddenAt, getD_setHiddenAt]
      by_cases hjc : j = ch
      · subst hjc
        by_cases hlt : j < st.recs.length
        · by_cases hmem : j ∈ cs
          · simp [hlt, hmem, metaSetHidden_after]
          · simp [hlt, hmem]
        · simp [hlt]
      · by_cases hmem : j ∈ cs
        · by_cases hlt : j < st.recs.length
          · simp [hjc, hlt, hmem]
          · simp [hjc, hlt, hmem]
        · simp [hjc, hmem]
    cases v with
    | true =>
      simp only [procChildren]
      rw [if_pos hv]
      have hcfalse : ¬((((setHiddenAt st ch true).recs.getD ch
          default).hasChildren
            && jsNot ((setHiddenAt st ch true).recs.getD ch
              default).collapsed) = true) := by
        rw [getD_setHiddenAt]
        split_ifs
        · intro hcontra
          rw [Bool.and_eq_true] at hcontra
          obtain ⟨h1, h2⟩ := hcontra
          rw [(metaSetHidden_fields true _).2.2.2.1] at h1
          rw [(metaSetHidden_fields true _).1, hcasc h1] at h2
          exact absurd h2 (by decide)
        · intro hcontra
          rw [Bool.and_eq_true] at hcontra
          obtain ⟨h1, h2⟩ := hcontra
          rw [hcasc h1] at h2
          exact absurd h2 (by decide)
      rw [if_neg hcfalse]
      exact hassemble _ rfl
    | false =>
      simp only [procChildren]
      rw [if_neg (by rw [hv]; exact Bool.false_ne_true)]
      exact hassemble _ rfl

/-- One collapse-button click on a record whose direct children with
children are all collapsed: no error, and the only changes are the record's
own `collapsed` flip and the children's `hidden` assignment. -/
theorem clickToggle_simple (st : HState) (i : Nat) (b : Bool)
    (hi : i < st.recs.length)
    (hch : (st.recs.getD i default).hasChildren = true)
    (hcol : (st.recs.getD i default).collapsed = some b)
    (hkids : ∀ j ∈ childPositions st (st.recs.getD i default).id,
      j ≠ i ∧ ((st.recs.getD j default).hasChildren = true →
        (st.recs.getD j default).collapsed = some true)) :
    (collapseButtonClick st i).2 = false ∧
    (collapseButtonClick st i).1.recs.length = st.recs.length ∧
    ∀ j, (collapseButtonClick st i).1.recs.getD j default
      = if j = i then metaSetCollapsed (!b) (st.recs.getD i default)
        else if j ∈ childPositions st (st.recs.getD i default).id
          then metaSetHidden (!b) (st.recs.getD j default)
          else st.recs.getD j default := by
  have hinotin : i ∉ childPositions st (st.recs.getD i default).id :=
    fun hmem => (hkids i hmem).1 rfl
  have hjn : jsNot ((st.recs.getD i default).collapsed) = !b := by
    rw [hcol]
    rfl
  have e1 : collapseButtonClick st i
      = toggleHiddenRows (setCollapsedAt st i (!b)) i := by
    show toggleHiddenRows
      (setCollapsedAt st i (jsNot ((st.recs.getD i default).collapsed))) i
      = toggleHiddenRows (setCollapsedAt st i (!b)) i
    rw [hjn]
  have hAlen : (setCollapsedAt st i (!b)).recs.length = st.recs.length :=
    length_setCollapsedAt st i (!b)
  have hAi : (setCollapsedAt st i (!b)).recs.getD i default
      = metaSetCollapsed (!b) (st.recs.getD i default) := by
    rw [getD_setCollapsedAt, if_pos ⟨rfl, hi⟩]
  have hAj : ∀ j, j ≠ i → (setCollapsedAt st i (!b)).recs.getD j default
      = st.recs.getD j default := fun j hj => by
    rw [getD_setCollapsedAt, if_neg (fun hcon => hj hcon.1)]
  have hAch : ((setCollapsedAt st i (!b)).recs.getD i default).hasChildren
      = true := by
    rw [hAi, (metaSetCollapsed_fields _ _).2.2.2.1]
    exact hch
  have hAid : ((setCollapsedAt st i (!b)).recs.getD i default).id
      = (st.recs.getD i default).id := by
    rw [hAi]
    exact (metaSetCollapsed_fields _ _).2.2.2.2.1
  have hAchildren : childPositions (setCollapsedAt st i (!b))
      (((setCollapsedAt st i (!b)).recs.getD i default).id)
      = childPositions st ((st.recs.getD i default).id) := by
    rw [hAid]
    exact childPositions_congr hAlen (parent_setCollapsedAt st i (!b)) _
  have e2 : toggleHiddenRows (setCollapsedAt st i (!b)) i
      = procChildren (setCollapsedAt st i (!b)) i
          (childPositions st ((st.recs.getD i default).id)) := by
    simp only [toggleHiddenRows]
    rw [if_pos hAch, hAchildren]
  have hptruthy : jsTruthy (((setCollapsedAt st i (!b)).recs.getD i
      default).collapsed) = !b := by
    rw [hAi, (metaSetCollapsed_fields _ _).1]
    rfl
  have hkidsA : ∀ j ∈ childPositions st ((st.recs.getD i default).id),
      j ≠ i ∧
      (((setCollapsedAt st i (!b)).recs.getD j default).hasChildren = true →
        ((setCollapsedAt st i (!b)).recs.getD j default).collapsed
          = some true) := by
    intro j hj
    obtain ⟨hjne, hjc⟩ := hkids j hj
    refine ⟨hjne, ?_⟩
    rw [hAj j hjne]
    exact hjc
  obtain ⟨perr, plen, pget⟩ := procChildren_no_cascade i (!b)
    (childPositions st ((st.recs.getD i default).id))
    (setCollapsedAt st i (!b)) hptruthy hkidsA
  refine ⟨?_, ?_, ?_⟩
  · rw [e1, e2]
    exact perr
  · rw [e1, e2, plen, hAlen]
  · intro j
    rw [e1, e2, pget j]
    by_cases hji : j = i
    · subst hji
      rw [if_neg (fun hcon => hinotin hcon.1), hAi, if_pos rfl]
    · by_cases hjm : j ∈ childPositions st ((st.recs.getD i default).id)
      · have hjlt : j < st.recs.length := childPositions_lt hjm
        rw [if_pos ⟨hjm, by rw [hAlen]; exact hjlt⟩, hAj j hji, if_neg hji,
          if_pos hjm]
      · rw [if_neg (fun hcon => hjm hcon.1), hAj j hji, if_neg hji,
          if_neg hjm]

/-- C6 (amended): toggling a record's collapse button twice in succession
returns the `collapsed`, `hidden` and hidden-marker state of every record to
the pre-toggle snapshot, provided every direct child that has children is
collapsed at the first toggle and the children's hidden markers agree with
the record's collapsed flag (as in the freshly built state).  Without that
proviso the claim fails: the collapsing step re-collapses an uncollapsed
child and aborts in the broken cascade, as the counterexample shows. -/
theorem c6_double_toggle_restores (st : HState) (i : Nat) (c : Bool)
    (hi : i < st.recs.length)
    (hch : (st.recs.getD i default).hasChildren = true)
    (hcol : (st.recs.getD i default).collapsed = some c)
    (hkids : ∀ j ∈ childPositions st ((st.recs.getD i default).id),
      j ≠ i ∧
      ((st.recs.getD j default).hasChildren = true →
        (st.recs.getD j default).collapsed = some true) ∧
      (st.recs.getD j default).row.clsHidden = c ∧
      (st.recs.getD j default).hidden = true) :
    (collapseButtonClick st i).2 = false ∧
    (collapseButtonClick (collapseButtonClick st i).1 i).2 = false ∧
    ∀ j, ((collapseButtonClick (collapseButtonClick st i).1 i).1.recs.getD j
        default).collapsed = (st.recs.getD j default).collapsed ∧
      ((collapseButtonClick (collapseButtonClick st i).1 i).1.recs.getD j
        default).hidden = (st.recs.getD j default).hidden ∧
      ((collapseButtonClick (collapseButtonClick st i).1 i).1.recs.getD j
        default).row.clsHidden
        = (st.recs.getD j default).row.clsHidden := by
  obtain ⟨h1err, h1len, h1get⟩ := clickToggle_simple st i c hi hch hcol
    (fun j hj => ⟨(hkids j hj).1, (hkids j hj).2.1⟩)
  have hXi : (collapseButtonClick st i).1.recs.getD i default
      = metaSetCollapsed (!c) (st.recs.getD i default) := by
    rw [h1get i, if_pos rfl]
  have hXlen : i < (collapseButtonClick st i).1.recs.length := by
    rw [h1len]
    exact hi
  have hXch : ((collapseButtonClick st i).1.recs.getD i
      default).hasChildren = true := by
    rw [hXi, (metaSetCollapsed_fields _ _).2.2.2.1]
    exact hch
  have hXcol : ((collapseButtonClick st i).1.recs.getD i default).collapsed
      = some (!c) := by
    rw [hXi, (metaSetCollapsed_fields _ _).1]
  have hXid : ((collapseButtonClick st i).1.recs.getD i default).id
      = (st.recs.getD i default).id := by
    rw [hXi]
    exact (metaSetCollapsed_fields _ _).2.2.2.2.1
  have hXpar : ∀ j, ((collapseButtonClick st i).1.recs.getD j
      default).parent = (st.recs.getD j default).parent := by
    intro j
    rw [h1get j]
    by_cases hji : j = i
    · subst hji
      rw [if_pos rfl]
      exact (metaSetCollapsed_fields _ _).2.2.2.2.2
    · rw [if_neg hji]
      by_cases hjm : j ∈ childPositions st ((st.recs.getD i default).id)
      · rw [if_pos hjm]
        exact (metaSetHidden_fields _ _).2.2.2.2.2
      · rw [if_neg hjm]
  have hXchildren : childPositions (collapseButtonClick st i).1
      (((collapseButtonClick st i).1.recs.getD i default).id)
      = childPositions st ((st.recs.getD i default).id) := by
    rw [hXid]
    exact childPositions_congr (by rw [h1len]) hXpar _
  have hXkids : ∀ j ∈ childPositions (collapseButtonClick st i).1
      (((collapseButtonClick st i).1.recs.getD i default).id),
      j ≠ i ∧
      (((collapseButtonClick st i).1.recs.getD j default).hasChildren = true
        → ((collapseButtonClick st i).1.recs.getD j default).collapsed
          = some true) := by
    intro j hj
    rw [hXchildren] at hj
    obtain ⟨hjne, hjc, _, _⟩ := hkids j hj
    have hXj : (collapseButtonClick st i).1.recs.getD j default
        = metaSetHidden (!c) (st.recs.getD j default) := by
      rw [h1get j, if_neg hjne, if_pos hj]
    refine ⟨hjne, ?_⟩
    rw [hXj, (metaSetHidden_fields _ _).2.2.2.1, (metaSetHidden_fields _ _).1]
    exact hjc
  obtain ⟨h2err, h2len, h2get⟩ := clickToggle_simple
    (collapseButtonClick st i).1 i (!c) hXlen hXch hXcol hXkids
  refine ⟨h1err, h2err, fun j => ?_⟩
  rw [h2get j]
  by_cases hji : j = i
  · subst hji
    rw [if_pos rfl, hXi]
    refine ⟨?_, ?_, ?_⟩
    · rw [(metaSetCollapsed_fields _ _).1, hcol, Bool.not_not]
    · rw [(metaSetCollapsed_fields _ _).2.1, (metaSetCollapsed_fields _ _).2.1]
    · rw [(metaSetCollapsed_fields _ _).2.2.1,
        (metaSetCollapsed_fields _ _).2.2.1]
  · rw [if_neg hji, hXchildren]
    by_cases hjm : j ∈ childPositions st ((st.recs.getD i default).id)
    · rw [if_pos hjm]
      have hXj : (collapseButtonClick st i).1.recs.getD j default
          = metaSetHidden (!c) (st.recs.getD j default) := by
        rw [h1get j, if_neg hji, if_pos hjm]
      rw [hXj, metaSetHidden_after, Bool.not_not]
      obtain ⟨_, _, hclsj, hhidj⟩ := hkids j hjm
      refine ⟨(metaSetHidden_fields _ _).1, ?_, ?_⟩
      · rw [(metaSetHidden_fields _ _).2.1, hhidj]
      · rw [(metaSetHidden_fields _ _).2.2.1, hclsj]
    · rw [if_neg hjm]
      have hXj : (collapseButtonClick st i).1.recs.getD j default
          = st.recs.getD j default := by
        rw [h1get j, if_neg hji, if_neg hjm]
      rw [hXj]
      exact ⟨rfl, rfl, rfl⟩

/-- Witness for C6: the freshly built worked example satisfies the proviso
at the root `A`, so double-toggling `A` restores all state. -/
theorem c6_double_toggle_restores_witness :
    (0 < exState.recs.length ∧
     (exState.recs.getD 0 default).hasChildren = true ∧
     (exState.recs.getD 0 default).collapsed = some true ∧
     (∀ j ∈ childPositions exState ((exState.recs.getD 0 default).id),
       j ≠ 0 ∧
       ((exState.recs.getD j default).hasChildren = true →
         (exState.recs.getD j default).collapsed = some true) ∧
       (exState.recs.getD j default).row.clsHidden = true ∧
       (exState.recs.getD j default).hidden = true)) ∧
    ((collapseButtonClick exState 0).2 = false ∧
     (collapseButtonClick (collapseButtonClick exState 0).1 0).2 = false ∧
     ∀ j, ((collapseButtonClick (collapseButtonClick exState 0).1
         0).1.recs.getD j default).collapsed
           = (exState.recs.getD j default).collapsed ∧
       ((collapseButtonClick (collapseButtonClick exState 0).1
         0).1.recs.getD j default).hidden
           = (exState.recs.getD j default).hidden ∧
       ((collapseButtonClick (collapseButtonClick exState 0).1
         0).1.recs.getD j default).row.clsHidden
           = (exState.recs.getD j default).row.clsHidden) :=
  ⟨⟨by decide, by decide, by decide, by decide⟩,
   c6_double_toggle_restores exState 0 true (by decide) (by decide)
     (by decide) (by decide)⟩
